import Mathlib

/-!
Verification of the upload/gallery server (server.py): a shallow embedding of
its metadata store, filesystem reconciler, sanitizers, duplicate-name
resolution, upload orchestration and gallery listing, together with proofs of
the specified properties.

Modelling conventions:
* Python dicts are insertion-ordered association lists (`List (String × _)`);
  assignment of a fresh key appends, assignment of a present key replaces in
  place, and iteration follows list order, exactly as in CPython.
* The filesystem is a value: the upload tree is the `os.listdir` view
  (folders, and inside each folder the regular files with their `st_mtime`),
  plus a list of further existing paths; `os.path.exists` is membership.
* `st_mtime` is modelled as a natural number; `datetime.fromtimestamp(...)
  .strftime(...)` and `get_file_size` are opaque environment functions carried
  in the filesystem value (their outputs never influence control flow).
* Fallible I/O calls (`os.rename` of the corrupt-metadata backup, the write of
  the temporary file, `os.replace`/`os.rename` of the metadata file,
  `os.remove` of the temporary file) are given explicit success flags; the
  `try/except` blocks of the source become total functions on these flags.
-/

/-- Record stored in the metadata mapping: the dict literal built in
`scan_all_uploads` / `upload_file` (every record the program itself creates
has all ten keys, so the record is total; `thumbnail` is `None` for
non-images, hence an `Option`). -/
structure FileRecord where
  folder : String
  filename : String
  description : String
  upload_date : String
  filepath : String
  thumbnail : Option String
  uploaded_by : String
  system_ip : String
  file_size : String
  is_image : Bool
deriving DecidableEq, Repr

/-- The metadata mapping (`photo_metadata.json` contents / `all_files`):
a Python dict keyed by file id. -/
abbrev Meta := List (String × FileRecord)

/-- The filesystem as seen by the reconciler: the upload tree one level deep
(`os.listdir(UPLOAD_BASE)`, then the regular files of each folder with their
mtimes), any other existing paths, and the opaque environment functions. -/
structure FS where
  folders : List (String × List (String × Nat))
  otherPaths : List String
  fmtTime : Nat → String
  sizeOf : String → String

def UPLOAD_BASE : String := "uploads"

def THUMBNAIL_DIR : String := "thumbnails"

/-- Path of a file inside a folder of the upload tree
(`os.path.join(os.path.join(UPLOAD_BASE, folder), filename)`). -/
def pathOf (folder filename : String) : String :=
  UPLOAD_BASE ++ "/" ++ folder ++ "/" ++ filename

/-- All paths of regular files in the upload tree. -/
def FS.filePaths (fs : FS) : List String :=
  fs.folders.flatMap (fun p => p.2.map (fun f => pathOf p.1 f.1))

/-- Model of `os.path.exists`. -/
def existsPath (fs : FS) (p : String) : Bool :=
  fs.filePaths.contains p || fs.otherPaths.contains p

def IMAGE_EXTS : List String :=
  ["jpg", "jpeg", "png", "gif", "bmp", "webp", "tiff", "svg"]

/-- Model of Python `str.strip()` with no argument: remove whitespace from
both ends. Implemented on the character list so it evaluates by kernel
reduction. -/
def pyStrip (s : String) : String :=
  String.mk (((s.toList.dropWhile Char.isWhitespace).reverse.dropWhile
    Char.isWhitespace).reverse)

/-- Model of the Python membership test `c in s` for a character,
implemented on the character list. -/
def strHas (s : String) (c : Char) : Bool :=
  s.toList.contains c

/-- Model of `str.lower()` on the ASCII names involved here, implemented
characterwise. -/
def strLower (s : String) : String :=
  String.mk (s.toList.map Char.toLower)

/-- Substring after the last dot: `filename.rsplit(".", 1)[1]` (only used
under a check that a dot is present). -/
def extOf (filename : String) : String :=
  String.mk ((filename.toList.reverse.takeWhile (fun c => !(c == '.'))).reverse)

/-- Model of `is_image` (server.py lines 109-114). -/
def is_image (filename : String) : Bool :=
  if filename = "" || !(strHas filename '.') then false
  else IMAGE_EXTS.contains (strLower (extOf filename))

/-- Identifier of a discovered file:
`f"{folder_name}_{filename}_{file_stat.st_mtime}"`. -/
def fileId (folder filename : String) (mtime : Nat) : String :=
  folder ++ "_" ++ filename ++ "_" ++ Nat.repr mtime

/-- Thumbnail name `f"{folder_name}_{filename}"`. -/
def thumbName (folder filename : String) : String :=
  folder ++ "_" ++ filename

/-- The record built for a newly discovered file (server.py lines 164-175). -/
def mkRecord (fs : FS) (folder filename : String) (mtime : Nat) : FileRecord :=
  let img := is_image filename
  { folder := folder
    filename := filename
    description := "Auto-detected file"
    upload_date := fs.fmtTime mtime
    filepath := pathOf folder filename
    thumbnail := if img then some (thumbName folder filename) else none
    uploaded_by := "Unknown"
    system_ip := "Unknown"
    file_size := fs.sizeOf (pathOf folder filename)
    is_image := img }

/-- Stale-pointer pruning (server.py lines 133-139): keep exactly the records
whose `filepath` still exists. -/
def retain (fs : FS) (m : Meta) : Meta :=
  m.filter (fun e => existsPath fs e.2.filepath)

/-- One inner-loop iteration of the discovery scan (server.py lines 146-175):
compute the id of one on-disk file and add a fresh record unless the id is
already present. -/
def scanStep (fs : FS) (folder : String) (acc : Meta) (f : String × Nat) : Meta :=
  let i := fileId folder f.1 f.2
  if (acc.lookup i).isSome then acc else acc ++ [(i, mkRecord fs folder f.1 f.2)]

/-- Scan of one folder of the upload tree. -/
def scanFolder (fs : FS) (acc : Meta) (p : String × List (String × Nat)) : Meta :=
  p.2.foldl (scanStep fs p.1) acc

/-- Scan of the whole upload tree. -/
def scanNew (fs : FS) (acc : Meta) : Meta :=
  fs.folders.foldl (scanFolder fs) acc

/-- The pure mapping computation of `scan_all_uploads`: prune stale records,
then discover new files. -/
def scanMap (fs : FS) (m : Meta) : Meta :=
  scanNew fs (retain fs m)

/-- Content of the metadata file on disk, as far as `json.load` can tell:
absent, present but not syntactically valid JSON, valid JSON whose top-level
value is not an object, or a valid object. -/
inductive MetaContent where
  | absent
  | invalidJson (raw : String)
  | validNonDict (raw : String)
  | validDict (m : Meta)
deriving DecidableEq

/-- State of the paths the metadata store touches: the metadata file itself,
the `.backup` file, and the `.tmp` file. -/
structure MetaStore where
  main : MetaContent
  backup : Option String
  temp : Option Meta
deriving DecidableEq

/-- Model of `load_metadata` (server.py lines 44-68). `renameOk` tells whether
the best-effort `os.rename` to the backup name succeeds. -/
def load_metadata (s : MetaStore) (renameOk : Bool) : Meta × MetaStore :=
  match s.main with
  | .absent => ([], s)
  | .validDict m => (m, s)
  | .validNonDict _ => ([], s)
  | .invalidJson raw =>
      if renameOk then ([], { s with main := .absent, backup := some raw })
      else ([], s)

/-- Writing the temporary file (server.py lines 74-76). -/
def writeTemp (s : MetaStore) (d : Meta) : MetaStore :=
  { s with temp := some d }

/-- Atomically replacing the metadata file with the temporary file
(server.py lines 79-82). -/
def replaceMain (s : MetaStore) (d : Meta) : MetaStore :=
  { s with main := .validDict d, temp := none }

/-- Which of the two replacement calls `save_metadata` took. -/
inductive ReplaceOp where
  | replaceOp
  | renameOp
deriving DecidableEq

/-- Result of `save_metadata`: the store afterwards, the returned boolean, and
(on success) which replacement call ran. -/
structure SaveResult where
  store : MetaStore
  ok : Bool
  op : Option ReplaceOp
deriving DecidableEq

/-- Model of `save_metadata` (server.py lines 70-94). `writeOk` is the success
of writing the temporary file, `replaceOk` of the `os.replace`/`os.rename`
call, `removeOk` of the cleanup `os.remove`. -/
def save_metadata (s : MetaStore) (d : Meta) (writeOk replaceOk removeOk : Bool) :
    SaveResult :=
  if writeOk then
    let s1 := writeTemp s d
    if replaceOk then
      { store := replaceMain s1 d
        ok := true
        op := some (if s.main = .absent then ReplaceOp.renameOp else ReplaceOp.replaceOp) }
    else
      { store := if removeOk then { s1 with temp := none } else s1
        ok := false
        op := none }
  else
    { store := if s.temp.isSome && removeOk then { s with temp := none } else s
      ok := false
      op := none }

/-- Success flags of the fallible I/O inside one reconciliation pass. -/
structure ScanFlags where
  renameOk : Bool
  writeOk : Bool
  replaceOk : Bool
  removeOk : Bool

/-- Model of `scan_all_uploads` (server.py lines 128-181): load, prune,
discover, persist (fire-and-forget), return the mapping. -/
def scan_all_uploads (fs : FS) (s : MetaStore) (fl : ScanFlags) : Meta × MetaStore :=
  let load := load_metadata s fl.renameOk
  let r := scanMap fs load.1
  (r, (save_metadata load.2 r fl.writeOk fl.replaceOk fl.removeOk).store)

/-- Modelled from the spec: `secure_filename` from werkzeug, the external
"path-safety filter" the spec names as a collaborator (the library is not part
of this repository). It keeps only ASCII alphanumerics, underscore, dot and
hyphen, and strips leading and trailing dots and underscores, so no path
separator survives and the result never reduces to a chain of dots. -/
def secure_filename (s : String) : String :=
  let kept := s.toList.filter (fun c => c.isAlphanum || c == '_' || c == '.' || c == '-')
  let front := kept.dropWhile (fun c => c == '.' || c == '_')
  let core := (front.reverse.dropWhile (fun c => c == '.' || c == '_')).reverse
  String.mk core

/-- Model of `sanitize_filename` (server.py lines 210-225). Python's
`str.isalnum` is modelled on the ASCII range by `Char.isAlphanum`; the inputs
it is applied to here are already ASCII-filtered by `secure_filename`. -/
def sanitize_filename (filename : String) : Option String :=
  if filename = "" then none
  else
    let f1 := secure_filename filename
    let f2 := String.mk (f1.toList.filter (fun c => c.isAlphanum || c == '_' || c == '-' || c == '.'))
    if f2 = "" || !(strHas f2 '.') then none else some f2

/-- Model of `sanitize_foldername` (server.py lines 227-240). -/
def sanitize_foldername (foldername : String) : Option String :=
  if foldername = "" then none
  else
    let kept := String.mk (foldername.toList.filter
      (fun c => c.isAlphanum || c == '_' || c == '-' || c == ' '))
    let t := pyStrip kept
    if t = "" || t.length > 100 then none else some t

/-- Model of `os.path.splitext` on a plain basename: split at the last dot,
provided some earlier character of the name is not a dot (leading dots do not
start an extension). -/
def splitext (s : String) : String × String :=
  let cs := s.toList
  match cs.reverse.findIdx? (fun c => c == '.') with
  | none => (s, "")
  | some j =>
      let i := cs.length - 1 - j
      if (cs.take i).any (fun c => !(c == '.')) then
        (String.mk (cs.take i), String.mk (cs.drop i))
      else (s, "")

/-- The k-th name tried by the duplicate-resolution loop (server.py lines
292-300): the sanitized name itself, then `f"{name}_{counter}{ext}"` with
`name, ext = os.path.splitext(base_filename)`. -/
def candidate (base : String) : Nat → String
  | 0 => base
  | k + 1 => (splitext base).1 ++ "_" ++ Nat.repr (k + 1) ++ (splitext base).2

/-- The `while os.path.exists(filepath)` probing loop, starting at counter
`k`; `fuel` bounds the number of probes (the source loop is unbounded, and
`none` models a run that has not found a free name within `fuel` probes). -/
def probeFrom (ex : String → Bool) (dir base : String) : Nat → Nat → Option String
  | _, 0 => none
  | k, fuel + 1 =>
      if ex (dir ++ "/" ++ candidate base k) then probeFrom ex dir base (k + 1) fuel
      else some (candidate base k)

/-- Names produced by `n` successive uploads of the same sanitized filename
into the same folder: each upload probes against the pre-existing paths `ex0`
plus the files saved by the earlier uploads, then saves its file. -/
def duplicateRun (ex0 : String → Bool) (dir base : String) (fuel : Nat) :
    Nat → Option (List String)
  | 0 => some []
  | n + 1 =>
      match duplicateRun ex0 dir base fuel n with
      | none => none
      | some names =>
          match probeFrom
              (fun p => ex0 p || names.any (fun nm => dir ++ "/" ++ nm == p))
              dir base 0 fuel with
          | none => none
          | some nm => some (names ++ [nm])

/-- Model of `get_system_info` (server.py lines 33-42): the hostname literal
is hardcoded to `"Aman"`; the argument is the result of
`socket.gethostbyname("Aman")`, `none` when it raises. -/
def get_system_info (dns : Option String) : String × String :=
  match dns with
  | some ip => ("Aman", ip)
  | none => ("Unknown", "Unknown")

/-- Python dict assignment `m[i] = v`: replace in place when the key is
present, append otherwise. -/
def dictInsert (m : Meta) (i : String) (v : FileRecord) : Meta :=
  if (m.lookup i).isSome then
    m.map (fun e => if e.1 == i then (e.1, v) else e)
  else m ++ [(i, v)]

/-- The parts of the upload request that drive `upload_file`. -/
structure UploadReq where
  hasFile : Bool
  origFilename : String
  foldernameRaw : String
  descriptionRaw : String

/-- Outcome of `upload_file`: a 4xx rejection, the 200 success payload, or
divergence of the unbounded probing loop (fuel exhausted). -/
inductive UploadResult where
  | reject (code : Nat) (msg : String)
  | success (folder filename path uploaded_by ip size : String)
  | diverge
deriving DecidableEq

/-- Model of `upload_file` (server.py lines 255-347): validation, sanitizing,
duplicate-name probing, thumbnail choice, metadata update and best-effort
save, then the 200 response. `now` and `nowTs` are the formatted
`datetime.now()` values; the flags are those of the store operations. -/
def upload_file (fs : FS) (s : MetaStore) (dns : Option String) (req : UploadReq)
    (now nowTs : String) (fuel : Nat) (renameOk writeOk replaceOk removeOk : Bool) :
    UploadResult × MetaStore :=
  if !req.hasFile then (.reject 400 "No file uploaded!", s)
  else if req.origFilename = "" then (.reject 400 "No file selected!", s)
  else if pyStrip req.foldernameRaw = "" then (.reject 400 "Name is required!", s)
  else
    let info := get_system_info dns
    match sanitize_foldername (pyStrip req.foldernameRaw) with
    | none => (.reject 400 "Invalid name! Use only letters, numbers, spaces, hyphens and underscores.", s)
    | some foldername =>
        match sanitize_filename req.origFilename with
        | none => (.reject 400 "Invalid filename! Please use a proper filename with extension.", s)
        | some base =>
            match probeFrom (existsPath fs) (UPLOAD_BASE ++ "/" ++ foldername) base 0 fuel with
            | none => (.diverge, s)
            | some filename =>
                let filepath := pathOf foldername filename
                let img := is_image filename
                let load := load_metadata s renameOk
                let i := foldername ++ "_" ++ filename ++ "_" ++ nowTs
                let r0 : FileRecord :=
                  { folder := foldername
                    filename := filename
                    description := pyStrip req.descriptionRaw
                    upload_date := now
                    filepath := filepath
                    thumbnail := if img then some (thumbName foldername filename) else none
                    uploaded_by := info.1
                    system_ip := info.2
                    file_size := fs.sizeOf filepath
                    is_image := img }
                let sv := save_metadata load.2 (dictInsert load.1 i r0) writeOk replaceOk removeOk
                (.success foldername filename filepath info.1 info.2 (fs.sizeOf filepath), sv.store)

/-- One row of the `/gallery` response (server.py lines 361-372). -/
structure GalleryItem where
  rowId : String
  folder : String
  name : String
  description : String
  date : String
  thumbnail : Option String
  uploaded_by : String
  system_ip : String
  file_size : String
  is_image : Bool
deriving DecidableEq

/-- The `stats` object of the `/gallery` response. -/
structure GalleryStats where
  total_files : Nat
  total_folders : Nat
  total_systems : Nat
deriving DecidableEq

/-- Projection of one metadata entry to a gallery row. -/
def toItem (e : String × FileRecord) : GalleryItem :=
  { rowId := e.1
    folder := e.2.folder
    name := e.2.filename
    description := e.2.description
    date := e.2.upload_date
    thumbnail := e.2.thumbnail
    uploaded_by := e.2.uploaded_by
    system_ip := e.2.system_ip
    file_size := e.2.file_size
    is_image := e.2.is_image }

/-- Model of the `gallery` handler body (server.py lines 349-390) applied to a
reconciled mapping: build the rows, sort by date string newest first (Python
`list.sort` is stable and `reverse=True` keeps the stable order on ties, which
`mergeSort` with the reversed comparison reproduces), and count rows, distinct
folders and distinct uploaders. -/
def gallery (m : Meta) : List GalleryItem × GalleryStats :=
  let files := (m.map toItem).mergeSort (fun a b => decide (b.date ≤ a.date))
  { fst := files
    snd :=
      { total_files := files.length
        total_folders := (m.map (fun e => e.2.folder)).dedup.length
        total_systems := (m.map (fun e => e.2.uploaded_by)).dedup.length } }

/-- Decimal value of a digit string, the left inverse used to prove `Nat.repr`
injective. -/
def decVal (l : List Char) : Nat :=
  l.foldl (fun a c => 10 * a + (c.toNat - 48)) 0

/-- Fixed environment functions for the concrete instances below. -/
def envTime : Nat → String := fun t => Nat.repr t

def envSize : String → String := fun _ => "1.00 B"

/-- Upload tree holding one text file `uploads/f/a.txt` with mtime 2. -/
def fsOne : FS :=
  { folders := [("f", [("a.txt", 2)])], otherPaths := [], fmtTime := envTime, sizeOf := envSize }

/-- Record for `uploads/f/a.txt` as discovered when its mtime was 1. -/
def recOld : FileRecord :=
  { folder := "f"
    filename := "a.txt"
    description := "Auto-detected file"
    upload_date := "1"
    filepath := pathOf "f" "a.txt"
    thumbnail := none
    uploaded_by := "Unknown"
    system_ip := "Unknown"
    file_size := "1.00 B"
    is_image := false }

/-- Metadata store persisted by the pass that saw mtime 1. -/
def storeOne : MetaStore :=
  { main := .validDict [(fileId "f" "a.txt" 1, recOld)], backup := none, temp := none }

/-- Flags for runs where every store operation succeeds. -/
def flagsAll : ScanFlags :=
  { renameOk := true, writeOk := true, replaceOk := true, removeOk := true }

/-- Empty upload tree. -/
def fsEmpty : FS :=
  { folders := [], otherPaths := [], fmtTime := envTime, sizeOf := envSize }

/-- Record whose backing file `uploads/g/gone.txt` no longer exists. -/
def recDead : FileRecord :=
  { folder := "g"
    filename := "gone.txt"
    description := "Auto-detected file"
    upload_date := "1"
    filepath := pathOf "g" "gone.txt"
    thumbnail := none
    uploaded_by := "Unknown"
    system_ip := "Unknown"
    file_size := "1.00 B"
    is_image := false }

/-- Metadata store still holding the dead record. -/
def storeDead : MetaStore :=
  { main := .validDict [(fileId "g" "gone.txt" 1, recDead)], backup := none, temp := none }

/-- Well-formed upload request used by the witnesses. -/
def reqPhoto : UploadReq :=
  { hasFile := true
    origFilename := "photo.jpg"
    foldernameRaw := " Trip "
    descriptionRaw := "" }

/-- Store whose metadata file is not valid JSON. -/
def storeCorrupt : MetaStore :=
  { main := .invalidJson "not json", backup := none, temp := none }

/-- Store whose metadata file is valid JSON but not an object. -/
def storeNonDict : MetaStore :=
  { main := .validNonDict "[1, 2]", backup := none, temp := none }

/-- Record stored by the concrete witness upload below. -/
def recStored : FileRecord :=
  { folder := "Trip"
    filename := "photo.jpg"
    description := ""
    upload_date := "2024-01-01 00:00:00"
    filepath := "uploads/Trip/photo.jpg"
    thumbnail := some "Trip_photo.jpg"
    uploaded_by := "Aman"
    system_ip := "1.2.3.4"
    file_size := "1.00 B"
    is_image := true }

/-! ### Association-list helpers -/

theorem lookup_append_some {l1 l2 : Meta} {i : String} (h : (l1.lookup i).isSome = true) :
    (l1 ++ l2).lookup i = l1.lookup i := by
  induction l1 with
  | nil => simp [List.lookup] at h
  | cons e t ih =>
      obtain ⟨k, v⟩ := e
      cases hk : (i == k) with
      | true => simp [List.lookup, hk]
      | false =>
          simp only [List.lookup, hk] at h ⊢
          simpa using ih (by simpa using h)

theorem lookup_append_none {l1 l2 : Meta} {i : String} (h : l1.lookup i = none) :
    (l1 ++ l2).lookup i = l2.lookup i := by
  induction l1 with
  | nil => simp
  | cons e t ih =>
      obtain ⟨k, v⟩ := e
      cases hk : (i == k) with
      | true => simp [List.lookup, hk] at h
      | false =>
          simp only [List.lookup, hk] at h ⊢
          simpa using ih (by simpa using h)

theorem mem_of_lookup_eq_some {m : Meta} {i : String} {d : FileRecord}
    (h : m.lookup i = some d) : (i, d) ∈ m := by
  induction m with
  | nil => simp [List.lookup] at h
  | cons e t ih =>
      obtain ⟨k, v⟩ := e
      cases hk : (i == k) with
      | true =>
          simp only [List.lookup, hk] at h
          have hik : i = k := by simpa using hk
          have hvd : v = d := by simpa using h
          subst hik; subst hvd
          exact List.mem_cons_self _ _
      | false =>
          simp only [List.lookup, hk] at h
          exact List.mem_cons_of_mem _ (ih (by simpa using h))

theorem retain_lookup_some {fs : FS} {m : Meta} {i : String} {d : FileRecord}
    (h : m.lookup i = some d) (hex : existsPath fs d.filepath = true) :
    (retain fs m).lookup i = some d := by
  induction m with
  | nil => simp [List.lookup] at h
  | cons e t ih =>
      obtain ⟨k, v⟩ := e
      cases hk : (i == k) with
      | true =>
          have hik : i = k := by simpa using hk
          have hvd : v = d := by
            simpa [List.lookup, hk] using h
          subst hik; subst hvd
          simp [retain, List.filter_cons, hex, List.lookup]
      | false =>
          have ht : t.lookup i = some d := by simpa [List.lookup, hk] using h
          by_cases hp : existsPath fs v.filepath = true
          · simpa [retain, List.filter_cons, hp, List.lookup, hk] using ih ht
          · simpa [retain, List.filter_cons, hp] using ih ht

/-! ### Discovery-scan invariants -/

theorem scanStep_lookup_some {fs : FS} {folder : String} {acc : Meta}
    {f : String × Nat} {i : String} {d : FileRecord} (h : acc.lookup i = some d) :
    (scanStep fs folder acc f).lookup i = some d := by
  simp only [scanStep]
  split
  · exact h
  · rw [lookup_append_some (by simp [h])]; exact h

theorem foldl_scanStep_lookup_some {fs : FS} {folder : String}
    {files : List (String × Nat)} {acc : Meta} {i : String} {d : FileRecord}
    (h : acc.lookup i = some d) :
    (files.foldl (scanStep fs folder) acc).lookup i = some d := by
  induction files generalizing acc with
  | nil => exact h
  | cons f t ih => exact ih (scanStep_lookup_some h)

theorem foldl_scanFolder_lookup_some {fs : FS}
    {L : List (String × List (String × Nat))} {acc : Meta} {i : String}
    {d : FileRecord} (h : acc.lookup i = some d) :
    (L.foldl (scanFolder fs) acc).lookup i = some d := by
  induction L generalizing acc with
  | nil => exact h
  | cons p t ih => exact ih (foldl_scanStep_lookup_some h)

theorem scanNew_lookup_some {fs : FS} {acc : Meta} {i : String} {d : FileRecord}
    (h : acc.lookup i = some d) : (scanNew fs acc).lookup i = some d :=
  foldl_scanFolder_lookup_some h

theorem scanStep_isSome {fs : FS} {folder : String} {acc : Meta}
    {f : String × Nat} {i : String} (h : (acc.lookup i).isSome = true) :
    ((scanStep fs folder acc f).lookup i).isSome = true := by
  obtain ⟨d, hd⟩ := Option.isSome_iff_exists.mp h
  simp [scanStep_lookup_some hd]

theorem foldl_scanStep_isSome {fs : FS} {folder : String}
    {files : List (String × Nat)} {acc : Meta} {i : String}
    (h : (acc.lookup i).isSome = true) :
    ((files.foldl (scanStep fs folder) acc).lookup i).isSome = true := by
  obtain ⟨d, hd⟩ := Option.isSome_iff_exists.mp h
  simp [foldl_scanStep_lookup_some hd]

theorem foldl_scanFolder_isSome {fs : FS}
    {L : List (String × List (String × Nat))} {acc : Meta} {i : String}
    (h : (acc.lookup i).isSome = true) :
    ((L.foldl (scanFolder fs) acc).lookup i).isSome = true := by
  obtain ⟨d, hd⟩ := Option.isSome_iff_exists.mp h
  simp [foldl_scanFolder_lookup_some hd]

theorem scanStep_hasKey_self {fs : FS} {folder : String} {acc : Meta}
    {f : String × Nat} :
    ((scanStep fs folder acc f).lookup (fileId folder f.1 f.2)).isSome = true := by
  simp only [scanStep]
  split
  · assumption
  · rename_i hnone
    rw [lookup_append_none (Option.not_isSome_iff_eq_none.mp hnone)]
    simp [List.lookup]

theorem foldl_scanStep_hasKey {fs : FS} {folder : String}
    {files : List (String × Nat)} {acc : Meta} {fn : String} {mt : Nat}
    (hf : (fn, mt) ∈ files) :
    ((files.foldl (scanStep fs folder) acc).lookup (fileId folder fn mt)).isSome = true := by
  induction files generalizing acc with
  | nil => cases hf
  | cons f t ih =>
      rcases List.mem_cons.mp hf with h | h
      · subst h
        rw [List.foldl_cons]
        exact foldl_scanStep_isSome (@scanStep_hasKey_self fs folder acc (fn, mt))
      · exact ih h

theorem foldl_scanFolder_hasKey {fs : FS}
    {L : List (String × List (String × Nat))} {acc : Meta} {folder : String}
    {files : List (String × Nat)} {fn : String} {mt : Nat}
    (hp : (folder, files) ∈ L) (hf : (fn, mt) ∈ files) :
    ((L.foldl (scanFolder fs) acc).lookup (fileId folder fn mt)).isSome = true := by
  induction L generalizing acc with
  | nil => cases hp
  | cons p t ih =>
      rcases List.mem_cons.mp hp with h | h
      · subst h
        rw [List.foldl_cons]
        refine foldl_scanFolder_isSome ?_
        show ((files.foldl (scanStep fs folder) acc).lookup (fileId folder fn mt)).isSome = true
        exact foldl_scanStep_hasKey hf
      · exact ih h

theorem scanNew_hasKey {fs : FS} {acc : Meta} {folder : String}
    {files : List (String × Nat)} {fn : String} {mt : Nat}
    (hp : (folder, files) ∈ fs.folders) (hf : (fn, mt) ∈ files) :
    ((scanNew fs acc).lookup (fileId folder fn mt)).isSome = true :=
  foldl_scanFolder_hasKey hp hf

theorem pathOf_existsPath {fs : FS} {folder : String} {files : List (String × Nat)}
    {fn : String} {mt : Nat} (hp : (folder, files) ∈ fs.folders) (hf : (fn, mt) ∈ files) :
    existsPath fs (pathOf folder fn) = true := by
  have hmem : pathOf folder fn ∈ fs.filePaths := by
    unfold FS.filePaths
    exact List.mem_flatMap.mpr ⟨(folder, files), hp,
      List.mem_map.mpr ⟨(fn, mt), hf, rfl⟩⟩
  unfold existsPath
  simp only [Bool.or_eq_true]
  exact Or.inl (by simpa [List.elem_iff] using hmem)

theorem scanStep_mem {fs : FS} {folder : String} {acc : Meta} {f : String × Nat}
    {e : String × FileRecord} (he : e ∈ scanStep fs folder acc f) :
    e ∈ acc ∨ e = (fileId folder f.1 f.2, mkRecord fs folder f.1 f.2) := by
  simp only [scanStep] at he
  split at he
  · exact Or.inl he
  · rcases List.mem_append.mp he with h | h
    · exact Or.inl h
    · exact Or.inr (by simpa using h)

theorem foldl_scanStep_exists {fs : FS} {folder : String}
    {files : List (String × Nat)}
    (hff : ∀ f ∈ files, existsPath fs (pathOf folder f.1) = true) :
    ∀ {acc : Meta}, (∀ x ∈ acc, existsPath fs x.2.filepath = true) →
    ∀ x ∈ files.foldl (scanStep fs folder) acc, existsPath fs x.2.filepath = true := by
  induction files with
  | nil => intro acc hacc x hx; exact hacc x hx
  | cons f t ih =>
      intro acc hacc x hx
      refine ih (fun g hg => hff g (List.mem_cons_of_mem _ hg)) ?_ x hx
      intro y hy
      rcases scanStep_mem hy with h | h
      · exact hacc y h
      · subst h
        simpa [mkRecord] using hff f (List.mem_cons_self _ _)

theorem foldl_scanFolder_exists {fs : FS}
    {L : List (String × List (String × Nat))} (hL : ∀ p ∈ L, p ∈ fs.folders) :
    ∀ {acc : Meta}, (∀ x ∈ acc, existsPath fs x.2.filepath = true) →
    ∀ x ∈ L.foldl (scanFolder fs) acc, existsPath fs x.2.filepath = true := by
  induction L with
  | nil => intro acc hacc x hx; exact hacc x hx
  | cons p t ih =>
      intro acc hacc x hx
      refine ih (fun q hq => hL q (List.mem_cons_of_mem _ hq)) ?_ x hx
      have hp : p ∈ fs.folders := hL p (List.mem_cons_self _ _)
      exact foldl_scanStep_exists
        (fun f hf => pathOf_existsPath hp hf) hacc

theorem scanMap_exists {fs : FS} {m : Meta} :
    ∀ x ∈ scanMap fs m, existsPath fs x.2.filepath = true := by
  intro x hx
  refine foldl_scanFolder_exists (fun p hp => hp) ?_ x hx
  intro y hy
  exact (List.mem_filter.mp hy).2

theorem scanStep_eq_of_hasKey {fs : FS} {folder : String} {acc : Meta}
    {f : String × Nat} (h : (acc.lookup (fileId folder f.1 f.2)).isSome = true) :
    scanStep fs folder acc f = acc := by
  unfold scanStep
  simp [h]

theorem foldl_scanStep_eq {fs : FS} {folder : String}
    {files : List (String × Nat)} {acc : Meta}
    (h : ∀ f ∈ files, (acc.lookup (fileId folder f.1 f.2)).isSome = true) :
    files.foldl (scanStep fs folder) acc = acc := by
  induction files with
  | nil => rfl
  | cons f t ih =>
      rw [List.foldl_cons, scanStep_eq_of_hasKey (h f (List.mem_cons_self _ _))]
      exact ih (fun g hg => h g (List.mem_cons_of_mem _ hg))

theorem foldl_scanFolder_eq {fs : FS}
    {L : List (String × List (String × Nat))} {acc : Meta}
    (h : ∀ p ∈ L, ∀ f ∈ p.2, (acc.lookup (fileId p.1 f.1 f.2)).isSome = true) :
    L.foldl (scanFolder fs) acc = acc := by
  induction L with
  | nil => rfl
  | cons p t ih =>
      have hp : scanFolder fs acc p = acc := by
        unfold scanFolder
        exact foldl_scanStep_eq (h p (List.mem_cons_self _ _))
      rw [List.foldl_cons, hp]
      exact ih (fun q hq => h q (List.mem_cons_of_mem _ hq))

theorem retain_eq_self {fs : FS} {m : Meta}
    (h : ∀ x ∈ m, existsPath fs x.2.filepath = true) : retain fs m = m := by
  unfold retain
  exact List.filter_eq_self.mpr (fun a ha => h a ha)

theorem scanMap_idem (fs : FS) (m : Meta) : scanMap fs (scanMap fs m) = scanMap fs m := by
  have h1 : retain fs (scanMap fs m) = scanMap fs m :=
    retain_eq_self (fun x hx => scanMap_exists x hx)
  show scanNew fs (retain fs (scanMap fs m)) = scanMap fs m
  rw [h1]
  exact foldl_scanFolder_eq (fun p hp f hf => by
    have h2 : (p.1, p.2) ∈ fs.folders := hp
    have h3 : (f.1, f.2) ∈ p.2 := hf
    exact @scanNew_hasKey fs (retain fs m) p.1 p.2 f.1 f.2 h2 h3)

/-! ### Claim C1 -/

/-- C1: every record of the loaded metadata whose `filepath` does not exist on
disk at the start of a reconciliation pass is absent from the mapping that
`scan_all_uploads` returns; in particular a record whose backing file is
deleted between two reconciliations is gone after the second call. -/
theorem scan_prunes_dead_records (fs : FS) (s : MetaStore) (fl : ScanFlags)
    (i : String) (d : FileRecord)
    (hm : ((load_metadata s fl.renameOk).1).lookup i = some d)
    (hdead : existsPath fs d.filepath = false) :
    ¬ (scan_all_uploads fs s fl).1.lookup i = some d := by
  intro hc
  have h1 : (scan_all_uploads fs s fl).1 = scanMap fs (load_metadata s fl.renameOk).1 := rfl
  rw [h1] at hc
  have h2 := scanMap_exists (i, d) (mem_of_lookup_eq_some hc)
  rw [h2] at hdead
  cases hdead

theorem scan_prunes_dead_records_witness :
    ¬ (scan_all_uploads fsEmpty storeDead flagsAll).1.lookup (fileId "g" "gone.txt" 1) = some recDead :=
  scan_prunes_dead_records fsEmpty storeDead flagsAll (fileId "g" "gone.txt" 1) recDead
    (by decide) (by decide)

/-! ### Claim C2 -/

/-- C2: reconciliation is idempotent; with no filesystem change between the
two calls, a second `scan_all_uploads` (run on the store state the first call
left behind, under any combination of I/O outcomes) returns exactly the
mapping the first call returned. -/
theorem scan_all_uploads_idempotent (fs : FS) (s : MetaStore) (fl1 fl2 : ScanFlags) :
    (scan_all_uploads fs ((scan_all_uploads fs s fl1).2) fl2).1 = (scan_all_uploads fs s fl1).1 := by
  obtain ⟨mc, bk, tp⟩ := s
  obtain ⟨r1, w1, p1, d1⟩ := fl1
  obtain ⟨r2, w2, p2, d2⟩ := fl2
  cases mc <;> cases r1 <;> cases r2 <;> cases w1 <;> cases p1 <;> cases d1 <;> cases tp <;>
    simp [scan_all_uploads, load_metadata, save_metadata, writeTemp, replaceMain,
      scanMap_idem]

/-! ### Claim C3 -/

/-- C3 counterexample: for the file `uploads/f/a.txt` whose mtime changed from
1 to 2, the next reconciliation does register the new identifier, but the
record under the old identifier is NOT removed from the returned mapping —
its `filepath` still exists, so the pruning step keeps it. This falsifies the
claim that the orphaned old revision is pruned. -/
theorem mtime_change_keeps_old_record :
    (scan_all_uploads fsOne storeOne flagsAll).1.lookup (fileId "f" "a.txt" 1) = some recOld ∧
    ((scan_all_uploads fsOne storeOne flagsAll).1.lookup (fileId "f" "a.txt" 2)).isSome = true ∧
    fileId "f" "a.txt" 1 ≠ fileId "f" "a.txt" 2 := by decide

/-- C3 (amended): when a known file's on-disk modification time changes, the
next reconciliation assigns it a new identifier derived from folder, filename
and the new mtime, but the record under the old identifier is retained, not
removed: pruning only drops records whose `filepath` itself is gone, and the
path still exists. -/
theorem mtime_change_new_id_old_record_retained (fs : FS) (s : MetaStore)
    (fl : ScanFlags) (folder : String) (files : List (String × Nat)) (fn : String)
    (mt2 : Nat) (i : String) (d : FileRecord)
    (hp : (folder, files) ∈ fs.folders) (hf : (fn, mt2) ∈ files)
    (hm : ((load_metadata s fl.renameOk).1).lookup i = some d)
    (hpath : d.filepath = pathOf folder fn) :
    ((scan_all_uploads fs s fl).1.lookup (fileId folder fn mt2)).isSome = true ∧
    (scan_all_uploads fs s fl).1.lookup i = some d := by
  have h1 : (scan_all_uploads fs s fl).1 = scanMap fs (load_metadata s fl.renameOk).1 := rfl
  have hex : existsPath fs d.filepath = true := by
    rw [hpath]; exact pathOf_existsPath hp hf
  constructor
  · rw [h1]; exact scanNew_hasKey hp hf
  · rw [h1]; exact scanNew_lookup_some (retain_lookup_some hm hex)

theorem mtime_change_new_id_old_record_retained_witness :
    ((scan_all_uploads fsOne storeOne flagsAll).1.lookup (fileId "f" "a.txt" 2)).isSome = true ∧
    (scan_all_uploads fsOne storeOne flagsAll).1.lookup (fileId "f" "a.txt" 1) = some recOld :=
  mtime_change_new_id_old_record_retained fsOne storeOne flagsAll "f" [("a.txt", 2)]
    "a.txt" 2 (fileId "f" "a.txt" 1) recOld (by decide) (by decide) (by decide) (by decide)

/-! ### Claim C4 -/

/-- C4: on a metadata file that is not valid JSON, `load_metadata` returns an
empty mapping and renames the corrupt file to the `.backup` path, preserving
its original bytes; when the best-effort rename fails the failure is swallowed
and an empty mapping is still returned (the function is total, so it never
raises). -/
theorem load_metadata_corrupt_resets (s : MetaStore) (raw : String) (renameOk : Bool)
    (h : s.main = .invalidJson raw) :
    (load_metadata s renameOk).1 = [] ∧
    (renameOk = true →
      (load_metadata s renameOk).2.backup = some raw ∧
      (load_metadata s renameOk).2.main = .absent) ∧
    (renameOk = false → (load_metadata s renameOk).2 = s) := by
  cases renameOk <;> simp [load_metadata, h]

theorem load_metadata_corrupt_resets_witness :
    (load_metadata storeCorrupt true).1 = [] ∧
    (true = true →
      (load_metadata storeCorrupt true).2.backup = some "not json" ∧
      (load_metadata storeCorrupt true).2.main = .absent) ∧
    (true = false → (load_metadata storeCorrupt true).2 = storeCorrupt) :=
  load_metadata_corrupt_resets storeCorrupt "not json" true (by decide)

/-! ### Claim C9 -/

/-- C9: on a metadata file that is valid JSON but whose top-level value is not
an object, `load_metadata` returns an empty mapping and leaves the store
untouched — no `.backup` copy is made (that path runs only on JSON decode
errors) — and a subsequent successful `save_metadata` overwrites the file
without preserving it. -/
theorem load_metadata_nondict_no_backup (s : MetaStore) (raw : String)
    (renameOk : Bool) (h : s.main = .validNonDict raw) :
    (load_metadata s renameOk).1 = [] ∧
    (load_metadata s renameOk).2 = s ∧
    (∀ d removeOk, (save_metadata s d true true removeOk).store.main = .validDict d ∧
      (save_metadata s d true true removeOk).store.backup = s.backup) := by
  refine ⟨by simp [load_metadata, h], by simp [load_metadata, h], ?_⟩
  intro d removeOk
  simp [save_metadata, writeTemp, replaceMain]

theorem load_metadata_nondict_no_backup_witness :
    (load_metadata storeNonDict true).1 = [] ∧
    (load_metadata storeNonDict true).2 = storeNonDict ∧
    (∀ d removeOk, (save_metadata storeNonDict d true true removeOk).store.main = .validDict d ∧
      (save_metadata storeNonDict d true true removeOk).store.backup = storeNonDict.backup) :=
  load_metadata_nondict_no_backup storeNonDict "[1, 2]" true (by decide)

/-! ### Claim C8 -/

/-- C8: the gallery listing returns exactly the records of the reconciled
mapping, sorted by upload-date string in descending lexicographic order, and
reports as stats the number of listed records, the number of distinct folder
values and the number of distinct uploader values over the listed set. -/
theorem gallery_sorted_and_stats (m : Meta) :
    ((gallery m).1).Pairwise (fun a b => b.date ≤ a.date) ∧
    ((gallery m).1).Perm (m.map toItem) ∧
    (gallery m).2.total_files = m.length ∧
    (gallery m).2.total_folders = (m.map (fun e => e.2.folder)).toFinset.card ∧
    (gallery m).2.total_systems = (m.map (fun e => e.2.uploaded_by)).toFinset.card := by
  refine ⟨?_, ?_, ?_, ?_, ?_⟩
  · have hs := @List.sorted_mergeSort GalleryItem
      (fun a b => decide (b.date ≤ a.date))
      (fun a b c hab hbc => by
        simp only [decide_eq_true_eq] at hab hbc ⊢
        exact le_trans hbc hab)
      (fun a b => by
        simp only [Bool.or_eq_true, decide_eq_true_eq]
        exact le_total b.date a.date)
      (m.map toItem)
    exact hs.imp (fun h => by simpa using h)
  · exact List.mergeSort_perm (m.map toItem) _
  · simp [gallery]
  · simp [gallery, List.card_toFinset]
  · simp [gallery, List.card_toFinset]

/-! ### Claim C7 -/

/-- C7: `save_metadata` writes the mapping to the temporary path first and
then atomically replaces the real path, choosing `os.replace` when the target
exists and `os.rename` otherwise; on failure of either step it returns
`False` (never raising), leaves the metadata file as it was, and removes the
temporary file when that cleanup succeeds; and `upload_file` still returns the
success payload when the save fails. -/
theorem save_metadata_atomic_best_effort :
    (∀ s d removeOk,
      save_metadata s d true true removeOk =
        { store := replaceMain (writeTemp s d) d
          ok := true
          op := some (if s.main = .absent then ReplaceOp.renameOp else ReplaceOp.replaceOp) }) ∧
    (∀ s d removeOk,
      (save_metadata s d true false removeOk).ok = false ∧
      (save_metadata s d true false removeOk).store.main = s.main ∧
      (removeOk = true → (save_metadata s d true false removeOk).store.temp = none)) ∧
    (∀ s d replaceOk removeOk,
      (save_metadata s d false replaceOk removeOk).ok = false ∧
      (save_metadata s d false replaceOk removeOk).store.main = s.main ∧
      (s.temp.isSome = true → removeOk = true →
        (save_metadata s d false replaceOk removeOk).store.temp = none)) ∧
    (∀ fs s dns req now ts fuel renameOk replaceOk removeOk fo base fn,
      req.hasFile = true → req.origFilename ≠ "" → pyStrip req.foldernameRaw ≠ "" →
      sanitize_foldername (pyStrip req.foldernameRaw) = some fo →
      sanitize_filename req.origFilename = some base →
      probeFrom (existsPath fs) (UPLOAD_BASE ++ "/" ++ fo) base 0 fuel = some fn →
      (upload_file fs s dns req now ts fuel renameOk false replaceOk removeOk).1 =
        UploadResult.success fo fn (pathOf fo fn) (get_system_info dns).1
          (get_system_info dns).2 (fs.sizeOf (pathOf fo fn))) := by
  refine ⟨?_, ?_, ?_, ?_⟩
  · intro s d removeOk
    simp [save_metadata]
  · intro s d removeOk
    cases removeOk <;> simp [save_metadata, writeTemp]
  · intro s d replaceOk removeOk
    cases removeOk <;> cases hs : s.temp.isSome <;> simp [save_metadata, hs]
  · intro fs s dns req now ts fuel renameOk replaceOk removeOk fo base fn
    intro h1 h2 h3 h4 h5 h6
    simp [upload_file, h1, h2, h3, h4, h5, h6]

theorem save_metadata_atomic_best_effort_witness :
    save_metadata storeNonDict [] true true true =
      { store := replaceMain (writeTemp storeNonDict []) []
        ok := true
        op := some (if storeNonDict.main = .absent then ReplaceOp.renameOp else ReplaceOp.replaceOp) } ∧
    (upload_file fsEmpty storeNonDict none reqPhoto "2024-01-01 00:00:00" "100.0"
        1 true false true true).1 =
      UploadResult.success "Trip" "photo.jpg" (pathOf "Trip" "photo.jpg")
        (get_system_info none).1 (get_system_info none).2
        (fsEmpty.sizeOf (pathOf "Trip" "photo.jpg")) := by
  constructor
  · exact save_metadata_atomic_best_effort.1 storeNonDict [] true
  · exact save_metadata_atomic_best_effort.2.2.2 fsEmpty storeNonDict none reqPhoto
      "2024-01-01 00:00:00" "100.0" 1 true true true "Trip" "photo.jpg" "photo.jpg"
      (by decide) (by decide) (by decide) (by decide) (by decide) (by decide)

/-! ### Character-list helpers for the sanitizers -/

theorem dropWhile_idem {α : Type} (p : α → Bool) (l : List α) :
    (l.dropWhile p).dropWhile p = l.dropWhile p := by
  cases h : l.dropWhile p with
  | nil => simp
  | cons a t =>
      have ha := List.head?_dropWhile_not p l
      rw [h] at ha
      simp only [List.head?_cons] at ha
      simp [List.dropWhile_cons, ha]

theorem stripEnd_prefix {α : Type} (p : α → Bool) (l : List α) :
    (l.reverse.dropWhile p).reverse <+: l := by
  have h := List.dropWhile_suffix p (l := l.reverse)
  exact List.reverse_suffix.mp (by simpa using h)

theorem strip_core_head {α : Type} (p : α → Bool) (l : List α)
    (w : ((l.dropWhile p).reverse.dropWhile p).reverse ≠ []) :
    p ((((l.dropWhile p).reverse.dropWhile p).reverse).head w) = false := by
  have hpre := stripEnd_prefix p (l.dropWhile p)
  rw [List.IsPrefix.head hpre w]
  exact List.head_dropWhile_not p l (hpre.ne_nil w)

theorem strip_core_subset {α : Type} (p : α → Bool) (l : List α) :
    ∀ x ∈ ((l.dropWhile p).reverse.dropWhile p).reverse, x ∈ l := by
  intro x hx
  rw [List.mem_reverse] at hx
  have h1 := (List.dropWhile_suffix p).subset hx
  rw [List.mem_reverse] at h1
  exact (List.dropWhile_suffix p).subset h1

theorem dropWhile_eq_self_of_prefix {α : Type} (p : α → Bool) {x y : List α}
    (hxy : x <+: y) (hy : y.dropWhile p = y) : x.dropWhile p = x := by
  cases x with
  | nil => simp
  | cons a t =>
      cases y with
      | nil => exact absurd (List.prefix_nil.mp hxy) (by simp)
      | cons b u =>
          obtain ⟨r, hr⟩ := hxy
          have hab : a = b := by
            have := congrArg (fun z => z.head?) hr
            simpa using this
          subst hab
          have hpb : p a = false := by
            by_contra hp
            rw [List.dropWhile_cons_of_pos (by simpa using hp)] at hy
            have hlen := congrArg List.length hy
            have hle := ((List.dropWhile_suffix p (l := u)).sublist).length_le
            simp at hlen
            omega
          simp [List.dropWhile_cons, hpb]

theorem strip_core_idem {α : Type} (p : α → Bool) (l : List α) :
    ((((((l.dropWhile p).reverse.dropWhile p).reverse).dropWhile p).reverse.dropWhile p).reverse) =
    ((l.dropWhile p).reverse.dropWhile p).reverse := by
  have hA := dropWhile_idem p l
  have hpre := stripEnd_prefix p (l.dropWhile p)
  have hB1 := dropWhile_eq_self_of_prefix p hpre hA
  rw [hB1, List.reverse_reverse, dropWhile_idem]

theorem pyStrip_idem (s : String) : pyStrip (pyStrip s) = pyStrip s := by
  unfold pyStrip
  exact congrArg String.mk (strip_core_idem Char.isWhitespace s.toList)

theorem filename_char_safe (c : Char)
    (h : (c.isAlphanum || c == '_' || c == '-' || c == '.') = true) :
    c ≠ '/' ∧ c ≠ '\\' := by
  refine ⟨fun hc => ?_, fun hc => ?_⟩ <;> (subst hc; revert h; decide)

theorem folder_char_safe (c : Char)
    (h : (c.isAlphanum || c == '_' || c == '-' || c == ' ') = true) :
    c ≠ '/' ∧ c ≠ '\\' ∧ c ≠ '.' := by
  refine ⟨fun hc => ?_, fun hc => ?_, fun hc => ?_⟩ <;> (subst hc; revert h; decide)

theorem strip_core_head_of_head? {α : Type} (p : α → Bool) (l : List α) {x : α}
    (hx : (((l.dropWhile p).reverse.dropWhile p).reverse).head? = some x) :
    p x = false := by
  have w : ((l.dropWhile p).reverse.dropWhile p).reverse ≠ [] := by
    intro hnil
    rw [hnil] at hx
    simp at hx
  have h := strip_core_head p l w
  rw [List.head?_eq_head w] at hx
  rw [← Option.some.inj hx]
  exact h

/-! ### Claim C6 -/

/-- C6: sanitization is safe. A folder name that survives
`sanitize_foldername` is non-empty, trimmed, at most 100 characters, and made
only of alphanumerics, spaces, hyphens and underscores; a filename that
survives `sanitize_filename` is non-empty, keeps a dot (extension), and is
made only of alphanumerics, underscores, hyphens and dots; neither can be a
path-traversal sequence (no separator characters, never `".."`); and
`upload_file` answers a 400 rejection whenever either sanitizer returns
`None`, so no unsafe name reaches the filesystem layer. -/
theorem sanitization_is_safe :
    (∀ s t, sanitize_foldername s = some t →
      t ≠ "" ∧ t.length ≤ 100 ∧ pyStrip t = t ∧
      (∀ c ∈ t.toList, (c.isAlphanum || c == '_' || c == '-' || c == ' ') = true) ∧
      (∀ c ∈ t.toList, c ≠ '/' ∧ c ≠ '\\' ∧ c ≠ '.') ∧ t ≠ "..") ∧
    (∀ s t, sanitize_filename s = some t →
      t ≠ "" ∧ strHas t '.' = true ∧
      (∀ c ∈ t.toList, (c.isAlphanum || c == '_' || c == '-' || c == '.') = true) ∧
      (∀ c ∈ t.toList, c ≠ '/' ∧ c ≠ '\\') ∧ t ≠ "..") ∧
    (∀ fs s dns req now ts fuel renameOk writeOk replaceOk removeOk,
      req.hasFile = true → req.origFilename ≠ "" → pyStrip req.foldernameRaw ≠ "" →
      sanitize_foldername (pyStrip req.foldernameRaw) = none →
      (upload_file fs s dns req now ts fuel renameOk writeOk replaceOk removeOk).1 =
        UploadResult.reject 400 "Invalid name! Use only letters, numbers, spaces, hyphens and underscores.") ∧
    (∀ fs s dns req now ts fuel renameOk writeOk replaceOk removeOk fo,
      req.hasFile = true → req.origFilename ≠ "" → pyStrip req.foldernameRaw ≠ "" →
      sanitize_foldername (pyStrip req.foldernameRaw) = some fo →
      sanitize_filename req.origFilename = none →
      (upload_file fs s dns req now ts fuel renameOk writeOk replaceOk removeOk).1 =
        UploadResult.reject 400 "Invalid filename! Please use a proper filename with extension.") := by
  refine ⟨?_, ?_, ?_, ?_⟩
  · intro s t h
    simp only [sanitize_foldername] at h
    split at h
    · exact absurd h (by simp)
    · split at h
      · exact absurd h (by simp)
      · rename_i hcond
        simp only [Bool.or_eq_true, decide_eq_true_eq, not_or] at hcond
        obtain ⟨hne, hlen⟩ := hcond
        have ht := Option.some.inj h
        subst ht
        have hchars : ∀ c ∈ (pyStrip (String.mk (s.toList.filter
            (fun c => c.isAlphanum || c == '_' || c == '-' || c == ' ')))).toList,
            (c.isAlphanum || c == '_' || c == '-' || c == ' ') = true := by
          intro c hc
          have hc2 : c ∈ (((s.toList.filter
              (fun c => c.isAlphanum || c == '_' || c == '-' || c == ' ')).dropWhile
                Char.isWhitespace).reverse.dropWhile Char.isWhitespace).reverse := hc
          have hc3 := strip_core_subset Char.isWhitespace _ c hc2
          exact (List.mem_filter.mp hc3).2
        refine ⟨hne, Nat.le_of_not_lt hlen, pyStrip_idem _, hchars, ?_, ?_⟩
        · intro c hc
          exact folder_char_safe c (hchars c hc)
        · intro heq
          have hdot : '.' ∈ (pyStrip (String.mk (s.toList.filter
              (fun c => c.isAlphanum || c == '_' || c == '-' || c == ' ')))).toList := by
            rw [heq]; decide
          exact absurd (hchars '.' hdot) (by decide)
  · intro s t h
    simp only [sanitize_filename] at h
    split at h
    · exact absurd h (by simp)
    · split at h
      · exact absurd h (by simp)
      · rename_i hcond
        simp only [Bool.or_eq_true, decide_eq_true_eq, not_or, Bool.not_eq_true,
          Bool.not_eq_false] at hcond
        obtain ⟨hne, hdot⟩ := hcond
        have ht := Option.some.inj h
        have hswap : ∀ a b c d : Bool, (((a || b) || c) || d) = (((a || b) || d) || c) := by
          decide
        have hsub : ∀ a ∈ (secure_filename s).toList, a ∈ s.toList.filter
            (fun c => c.isAlphanum || c == '_' || c == '.' || c == '-') := by
          intro a ha
          have ha2 : a ∈ (((s.toList.filter
              (fun c => c.isAlphanum || c == '_' || c == '.' || c == '-')).dropWhile
                (fun c => c == '.' || c == '_')).reverse.dropWhile
                  (fun c => c == '.' || c == '_')).reverse := ha
          exact strip_core_subset _ _ a ha2
        have hfil : (secure_filename s).toList.filter
            (fun c => c.isAlphanum || c == '_' || c == '-' || c == '.') =
            (secure_filename s).toList := by
          refine List.filter_eq_self.mpr (fun a ha => ?_)
          have h1 := (List.mem_filter.mp (hsub a ha)).2
          rw [← hswap]
          exact h1
        have hts : t = secure_filename s := by
          rw [← ht, hfil]
          rfl
        have hchars : ∀ c ∈ t.toList,
            (c.isAlphanum || c == '_' || c == '-' || c == '.') = true := by
          intro c hc
          rw [hts] at hc
          rw [← hswap]
          exact (List.mem_filter.mp (hsub c hc)).2
        rw [ht] at hne hdot
        have hdot2 : strHas t '.' = true := by
          cases hb : strHas t '.'
          · rw [hb] at hdot; simp at hdot
          · rfl
        refine ⟨hne, hdot2, hchars, ?_, ?_⟩
        · intro c hc
          exact filename_char_safe c (hchars c hc)
        · intro heq
          rw [heq] at hts
          have hdata : (secure_filename s).toList = ['.', '.'] := by
            rw [← hts]
            decide
          have hhead : ((((s.toList.filter
              (fun c => c.isAlphanum || c == '_' || c == '.' || c == '-')).dropWhile
                (fun c => c == '.' || c == '_')).reverse.dropWhile
                  (fun c => c == '.' || c == '_')).reverse).head? = some '.' := by
            show ((secure_filename s).toList).head? = some '.'
            rw [hdata]
            rfl
          have hq := strip_core_head_of_head? _ _ hhead
          exact absurd hq (by decide)
  · intro fs s dns req now ts fuel renameOk writeOk replaceOk removeOk
    intro h1 h2 h3 h4
    simp [upload_file, h1, h2, h3, h4]
  · intro fs s dns req now ts fuel renameOk writeOk replaceOk removeOk fo
    intro h1 h2 h3 h4 h5
    simp [upload_file, h1, h2, h3, h4, h5]

theorem sanitization_is_safe_witness :
    (sanitize_foldername " Trip 2024 " = some "Trip 2024" → "Trip 2024" ≠ "") ∧
    (sanitize_filename "photo.jpg" = some "photo.jpg" → strHas "photo.jpg" '.' = true) ∧
    sanitize_foldername " Trip 2024 " = some "Trip 2024" ∧
    sanitize_filename "photo.jpg" = some "photo.jpg" := by
  refine ⟨?_, ?_, by decide, by decide⟩
  · intro h
    exact (sanitization_is_safe.1 " Trip 2024 " "Trip 2024" h).1
  · intro h
    exact (sanitization_is_safe.2.1 "photo.jpg" "photo.jpg" h).2.1

/-! ### Decimal representation: injectivity of the identifier suffix -/

theorem toDigitsCore_shift (fuel : Nat) : ∀ (n : Nat) (ds : List Char),
    Nat.toDigitsCore 10 fuel n ds = Nat.toDigitsCore 10 fuel n [] ++ ds := by
  induction fuel with
  | zero => intro n ds; simp [Nat.toDigitsCore]
  | succ f ih =>
      intro n ds
      simp only [Nat.toDigitsCore]
      split
      · simp
      · rw [ih (n / 10) (Nat.digitChar (n % 10) :: ds), ih (n / 10) [Nat.digitChar (n % 10)]]
        simp

theorem decVal_append (l : List Char) (c : Char) :
    decVal (l ++ [c]) = 10 * decVal l + (c.toNat - 48) := by
  simp [decVal, List.foldl_append]

theorem digitChar_val (n : Nat) (h : n < 10) : (Nat.digitChar n).toNat - 48 = n := by
  interval_cases n <;> rfl

theorem decVal_toDigitsCore (n : Nat) : ∀ (fuel : Nat), n < fuel →
    decVal (Nat.toDigitsCore 10 fuel n []) = n := by
  induction n using Nat.strong_induction_on with
  | _ n ih =>
      intro fuel hf
      cases fuel with
      | zero => omega
      | succ f =>
          have hdm := Nat.div_add_mod n 10
          have hmod : n % 10 < 10 := Nat.mod_lt n (by decide)
          simp only [Nat.toDigitsCore]
          split
          · rename_i h0
            have hn10 : n < 10 := by omega
            have hv := digitChar_val (n % 10) hmod
            simp only [decVal, List.foldl]
            omega
          · rename_i h0
            have hn0 : 0 < n := by
              rcases Nat.eq_zero_or_pos n with h | h
              · subst h; simp at h0
              · exact h
            have hlt : n / 10 < n := Nat.div_lt_self hn0 (by decide)
            rw [toDigitsCore_shift f (n / 10) [Nat.digitChar (n % 10)], decVal_append,
              ih (n / 10) hlt f (by omega), digitChar_val (n % 10) hmod]
            omega

theorem repr_inj {m n : Nat} (h : Nat.repr m = Nat.repr n) : m = n := by
  have hm := decVal_toDigitsCore m (m + 1) (Nat.lt_succ_self m)
  have hn := decVal_toDigitsCore n (n + 1) (Nat.lt_succ_self n)
  have hlist : Nat.toDigits 10 m = Nat.toDigits 10 n := congrArg String.data h
  unfold Nat.toDigits at hlist
  rw [← hm, ← hn, hlist]

theorem toDigitsCore_ne_nil (f n : Nat) : Nat.toDigitsCore 10 (f + 1) n [] ≠ [] := by
  simp only [Nat.toDigitsCore]
  split
  · simp
  · rw [toDigitsCore_shift f (n / 10) [Nat.digitChar (n % 10)]]
    simp

theorem repr_length_pos (n : Nat) : 0 < (Nat.repr n).length := by
  show 0 < (Nat.toDigits 10 n).length
  unfold Nat.toDigits
  cases h : Nat.toDigitsCore 10 (n + 1) n [] with
  | nil => exact absurd h (toDigitsCore_ne_nil n n)
  | cons a t => simp

/-! ### The duplicate-name candidates -/

theorem string_mk_append (a b : List Char) :
    String.mk a ++ String.mk b = String.mk (a ++ b) := rfl

theorem splitext_append (s : String) : (splitext s).1 ++ (splitext s).2 = s := by
  simp only [splitext]
  split
  · simp
  · split
    · rw [string_mk_append, List.take_append_drop]
      rfl
    · simp

theorem candidate_zero (base : String) : candidate base 0 = base := rfl

theorem string_append_left_cancel {p a b : String} (h : p ++ a = p ++ b) : a = b := by
  have hd := congrArg String.data h
  simp only [String.data_append] at hd
  exact String.ext ((List.append_right_inj _).mp hd)

theorem candidate_inj (base : String) : ∀ {i j : Nat},
    candidate base i = candidate base j → i = j := by
  have hlen0 : base.length = (splitext base).1.length + (splitext base).2.length := by
    conv_lhs => rw [← splitext_append base]
    simp
  have hlensucc : ∀ k : Nat, (candidate base (k + 1)).length =
      (splitext base).1.length + 1 + (Nat.repr (k + 1)).length +
        (splitext base).2.length := by
    intro k
    have h1 : ("_" : String).length = 1 := rfl
    simp only [candidate, String.length_append, h1]
  intro i j h
  match i, j with
  | 0, 0 => rfl
  | 0, k + 1 =>
      have h1 := congrArg String.length h
      rw [candidate_zero] at h1
      have h2 := hlensucc k
      have h3 := repr_length_pos (k + 1)
      omega
  | k + 1, 0 =>
      have h1 := congrArg String.length h
      rw [candidate_zero] at h1
      have h2 := hlensucc k
      have h3 := repr_length_pos (k + 1)
      omega
  | k + 1, l + 1 =>
      have hd := congrArg String.data h
      simp only [candidate, String.data_append, List.append_assoc] at hd
      have h2 := (List.append_right_inj _).mp hd
      have h3 := (List.append_right_inj _).mp h2
      have h4 := List.append_inj_left h3 (by
        have hk := congrArg List.length h3
        have hr1 := repr_length_pos (k + 1)
        have hr2 := repr_length_pos (l + 1)
        simp only [List.length_append] at hk
        have : (Nat.repr (k + 1)).length = (Nat.repr (k + 1)).data.length := rfl
        have : (Nat.repr (l + 1)).length = (Nat.repr (l + 1)).data.length := rfl
        omega)
      have h5 : Nat.repr (k + 1) = Nat.repr (l + 1) := String.ext h4
      have := repr_inj h5
      omega

/-! ### Claim C5 -/

theorem probeFrom_finds (ex : String → Bool) (dir base : String) :
    ∀ (t k fuel : Nat),
      (∀ j, j < t → ex (dir ++ "/" ++ candidate base (k + j)) = true) →
      ex (dir ++ "/" ++ candidate base (k + t)) = false → t < fuel →
      probeFrom ex dir base k fuel = some (candidate base (k + t)) := by
  intro t
  induction t with
  | zero =>
      intro k fuel hall hfree hf
      cases fuel with
      | zero => omega
      | succ f =>
          simp only [probeFrom]
          rw [if_neg]
          · simp
          · simp only [Nat.add_zero] at hfree
            simp [hfree]
  | succ t ih =>
      intro k fuel hall hfree hf
      cases fuel with
      | zero => omega
      | succ f =>
          have hkt : ∀ j, k + 1 + j = k + (j + 1) := by intro j; omega
          simp only [probeFrom]
          rw [if_pos (by simpa using hall 0 (Nat.succ_pos t))]
          have h1 := ih (k + 1) f
            (fun j hj => by rw [hkt j]; exact hall (j + 1) (by omega))
            (by rw [hkt t]; exact hfree) (by omega)
          rw [h1, hkt t]

theorem duplicateRun_spec (ex0 : String → Bool) (dir base : String) (fuel : Nat) :
    ∀ N : Nat, (∀ k, k ≤ N → ex0 (dir ++ "/" ++ candidate base k) = false) →
      N ≤ fuel →
      duplicateRun ex0 dir base fuel N = some ((List.range N).map (candidate base)) := by
  intro N
  induction N with
  | zero => intro hfree hfuel; rfl
  | succ n ih =>
      intro hfree hfuel
      have hrun := ih (fun k hk => hfree k (by omega)) (by omega)
      have hall : ∀ j, j < n →
          (fun p => ex0 p || ((List.range n).map (candidate base)).any
            (fun nm => dir ++ "/" ++ nm == p))
            (dir ++ "/" ++ candidate base (0 + j)) = true := by
        intro j hj
        simp only [Bool.or_eq_true, List.any_eq_true]
        refine Or.inr ⟨candidate base j, List.mem_map.mpr ⟨j, List.mem_range.mpr hj, rfl⟩, ?_⟩
        rw [Nat.zero_add]
        exact beq_self_eq_true _
      have hfree2 :
          (fun p => ex0 p || ((List.range n).map (candidate base)).any
            (fun nm => dir ++ "/" ++ nm == p))
            (dir ++ "/" ++ candidate base (0 + n)) = false := by
        simp only [Nat.zero_add, Bool.or_eq_false_iff]
        refine ⟨hfree n (by omega), ?_⟩
        rw [List.any_eq_false]
        rintro nm hnm
        obtain ⟨j, hj, hje⟩ := List.mem_map.mp hnm
        subst hje
        intro hbeq
        have heq := eq_of_beq hbeq
        have hcc := string_append_left_cancel heq
        have := candidate_inj base hcc
        rw [List.mem_range] at hj
        omega
      have hprobe := probeFrom_finds
        (fun p => ex0 p || ((List.range n).map (candidate base)).any
          (fun nm => dir ++ "/" ++ nm == p)) dir base n 0 fuel hall hfree2 (by omega)
      simp only [duplicateRun]
      rw [hrun]
      simp only [hprobe, List.range_succ, List.map_append, List.map_cons, List.map_nil,
        Nat.zero_add]

/-- C5: uploading the same sanitized filename `N` times into the same folder
(whose pre-existing contents collide with none of the candidate names)
produces the `N` pairwise distinct on-disk names `base`, then `base` with
`_1`, `_2`, ... inserted before the extension, each found by probing the
counters linearly until a non-existing path is reached — so no two uploads
collide. -/
theorem duplicate_uploads_distinct_names (ex0 : String → Bool) (dir base : String)
    (fuel N : Nat)
    (hfree : ∀ k, k ≤ N → ex0 (dir ++ "/" ++ candidate base k) = false)
    (hfuel : N ≤ fuel) :
    duplicateRun ex0 dir base fuel N = some ((List.range N).map (candidate base)) ∧
    ((List.range N).map (candidate base)).Nodup :=
  ⟨duplicateRun_spec ex0 dir base fuel N hfree hfuel,
    (List.nodup_range N).map (fun a b h => candidate_inj base h)⟩

theorem duplicate_uploads_distinct_names_witness :
    (duplicateRun (fun _ => false) "uploads/Trip" "photo.jpg" 3 3 =
      some ((List.range 3).map (candidate "photo.jpg")) ∧
    ((List.range 3).map (candidate "photo.jpg")).Nodup) ∧
    (List.range 3).map (candidate "photo.jpg") =
      ["photo.jpg", "photo_1.jpg", "photo_2.jpg"] :=
  ⟨duplicate_uploads_distinct_names (fun _ => false) "uploads/Trip" "photo.jpg" 3 3
    (fun k hk => rfl) (by decide), by decide⟩

/-! ### Claim C10 -/

theorem lookup_map_replace (m : Meta) (i : String) (v : FileRecord)
    (h : (m.lookup i).isSome = true) :
    (m.map (fun e => if e.1 == i then (e.1, v) else e)).lookup i = some v := by
  induction m with
  | nil => simp [List.lookup] at h
  | cons e t ih =>
      obtain ⟨k, w⟩ := e
      by_cases hik : i = k
      · subst hik
        simp only [List.map_cons]
        rw [show (if ((i, w).1 == i) = true then ((i, w).1, v) else (i, w)) = (i, v) by simp]
        simp [List.lookup]
      · have hk : (i == k) = false := by simp [hik]
        have hki : (k == i) = false := by
          cases hkk : (k == i) with
          | false => rfl
          | true => exact absurd (eq_of_beq hkk).symm hik
        simp only [List.map_cons]
        rw [show (if (k, w).1 == i then ((k, w).1, v) else (k, w)) = (k, w) by simp [hki]]
        simp only [List.lookup, hk]
        exact ih (by simpa [List.lookup, hk] using h)

theorem dictInsert_lookup_self (m : Meta) (i : String) (v : FileRecord) :
    (dictInsert m i v).lookup i = some v := by
  unfold dictInsert
  split
  · rename_i hsome
    exact lookup_map_replace m i v hsome
  · rename_i hnone
    rw [lookup_append_none (Option.not_isSome_iff_eq_none.mp hnone)]
    simp [List.lookup]

theorem dictInsert_mem {m : Meta} {i : String} {v : FileRecord}
    {e : String × FileRecord} (he : e ∈ dictInsert m i v) : e ∈ m ∨ e.2 = v := by
  unfold dictInsert at he
  split at he
  · obtain ⟨x, hx, hxe⟩ := List.mem_map.mp he
    by_cases hxi : (x.1 == i) = true
    · right; rw [← hxe]; simp [hxi]
    · left; rw [← hxe]; simp only [hxi]; simpa using hx
  · rcases List.mem_append.mp he with h | h
    · exact Or.inl h
    · right
      have he2 : e = (i, v) := by simpa using h
      rw [he2]

theorem gallery_systems_le_two (m : Meta)
    (hm : ∀ e ∈ m, e.2.uploaded_by = "Aman" ∨ e.2.uploaded_by = "Unknown") :
    (gallery m).2.total_systems ≤ 2 := by
  have hsub : (m.map (fun e => e.2.uploaded_by)).toFinset ⊆
      ({"Aman", "Unknown"} : Finset String) := by
    intro x hx
    rw [List.mem_toFinset, List.mem_map] at hx
    obtain ⟨e, he, hxe⟩ := hx
    rcases hm e he with h | h <;> simp [← hxe, h]
  have hcard : (gallery m).2.total_systems =
      (m.map (fun e => e.2.uploaded_by)).toFinset.card := by
    simp [gallery, List.card_toFinset]
  rw [hcard]
  calc (m.map (fun e => e.2.uploaded_by)).toFinset.card
      ≤ ({"Aman", "Unknown"} : Finset String).card := Finset.card_le_card hsub
    _ = 2 := Finset.card_pair (by decide)

/-- C10: the provenance of every successful upload is the hardcoded hostname.
`get_system_info` yields `"Aman"` exactly when DNS resolution of the literal
`"Aman"` succeeds and `"Unknown"` otherwise; the success response of
`upload_file` carries that value; the metadata record the upload builds and
persists (looked up in the saved mapping under the fresh identifier) carries
that same value in its `uploaded_by` field; and consequently, since the
gallery stat is computed from the records, a mapping whose records all carry
one of the two values has `total_systems` at most 2 — a bound the upload path
itself establishes and preserves for the mapping it stores. -/
theorem uploaded_by_is_constant :
    (∀ dns, (get_system_info dns).1 = if dns.isSome then "Aman" else "Unknown") ∧
    (∀ fs s dns req now ts fuel renameOk writeOk replaceOk removeOk fo base fn,
      req.hasFile = true → req.origFilename ≠ "" → pyStrip req.foldernameRaw ≠ "" →
      sanitize_foldername (pyStrip req.foldernameRaw) = some fo →
      sanitize_filename req.origFilename = some base →
      probeFrom (existsPath fs) (UPLOAD_BASE ++ "/" ++ fo) base 0 fuel = some fn →
      (upload_file fs s dns req now ts fuel renameOk writeOk replaceOk removeOk).1 =
        UploadResult.success fo fn (pathOf fo fn) (get_system_info dns).1
          (get_system_info dns).2 (fs.sizeOf (pathOf fo fn)) ∧
      ((get_system_info dns).1 = "Aman" ∨ (get_system_info dns).1 = "Unknown")) ∧
    (∀ fs s dns req now ts fuel renameOk removeOk fo base fn,
      req.hasFile = true → req.origFilename ≠ "" → pyStrip req.foldernameRaw ≠ "" →
      sanitize_foldername (pyStrip req.foldernameRaw) = some fo →
      sanitize_filename req.origFilename = some base →
      probeFrom (existsPath fs) (UPLOAD_BASE ++ "/" ++ fo) base 0 fuel = some fn →
      ∃ d : FileRecord,
        ((upload_file fs s dns req now ts fuel renameOk true true removeOk).2).main =
          MetaContent.validDict (dictInsert (load_metadata s renameOk).1
            (fo ++ "_" ++ fn ++ "_" ++ ts) d) ∧
        (dictInsert (load_metadata s renameOk).1 (fo ++ "_" ++ fn ++ "_" ++ ts) d).lookup
          (fo ++ "_" ++ fn ++ "_" ++ ts) = some d ∧
        d.uploaded_by = (get_system_info dns).1 ∧
        (d.uploaded_by = "Aman" ∨ d.uploaded_by = "Unknown")) ∧
    (∀ m : Meta, (∀ e ∈ m, e.2.uploaded_by = "Aman" ∨ e.2.uploaded_by = "Unknown") →
      (gallery m).2.total_systems ≤ 2) ∧
    (∀ fs s dns req now ts fuel renameOk removeOk fo base fn m2,
      req.hasFile = true → req.origFilename ≠ "" → pyStrip req.foldernameRaw ≠ "" →
      sanitize_foldername (pyStrip req.foldernameRaw) = some fo →
      sanitize_filename req.origFilename = some base →
      probeFrom (existsPath fs) (UPLOAD_BASE ++ "/" ++ fo) base 0 fuel = some fn →
      (∀ e ∈ (load_metadata s renameOk).1,
        e.2.uploaded_by = "Aman" ∨ e.2.uploaded_by = "Unknown") →
      ((upload_file fs s dns req now ts fuel renameOk true true removeOk).2).main =
        MetaContent.validDict m2 →
      (∀ e ∈ m2, e.2.uploaded_by = "Aman" ∨ e.2.uploaded_by = "Unknown") ∧
      (gallery m2).2.total_systems ≤ 2) := by
  refine ⟨?_, ?_, ?_, ?_, ?_⟩
  · intro dns; cases dns <;> rfl
  · intro fs s dns req now ts fuel renameOk writeOk replaceOk removeOk fo base fn
    intro h1 h2 h3 h4 h5 h6
    constructor
    · simp [upload_file, h1, h2, h3, h4, h5, h6]
    · cases dns <;> simp [get_system_info]
  · intro fs s dns req now ts fuel renameOk removeOk fo base fn
    intro h1 h2 h3 h4 h5 h6
    refine ⟨{ folder := fo
              filename := fn
              description := pyStrip req.descriptionRaw
              upload_date := now
              filepath := pathOf fo fn
              thumbnail := if is_image fn then some (thumbName fo fn) else none
              uploaded_by := (get_system_info dns).1
              system_ip := (get_system_info dns).2
              file_size := fs.sizeOf (pathOf fo fn)
              is_image := is_image fn },
      ?_, dictInsert_lookup_self _ _ _, rfl, ?_⟩
    · simp [upload_file, h1, h2, h3, h4, h5, h6, save_metadata, writeTemp, replaceMain]
    · cases dns <;> simp [get_system_info]
  · exact gallery_systems_le_two
  · intro fs s dns req now ts fuel renameOk removeOk fo base fn m2
    intro h1 h2 h3 h4 h5 h6 hinv hmain
    have h0 : ((upload_file fs s dns req now ts fuel renameOk true true removeOk).2).main =
        MetaContent.validDict (dictInsert (load_metadata s renameOk).1
          (fo ++ "_" ++ fn ++ "_" ++ ts)
          { folder := fo, filename := fn, description := pyStrip req.descriptionRaw,
            upload_date := now, filepath := pathOf fo fn,
            thumbnail := if is_image fn then some (thumbName fo fn) else none,
            uploaded_by := (get_system_info dns).1, system_ip := (get_system_info dns).2,
            file_size := fs.sizeOf (pathOf fo fn), is_image := is_image fn }) := by
      simp [upload_file, h1, h2, h3, h4, h5, h6, save_metadata, writeTemp, replaceMain]
    rw [h0] at hmain
    injection hmain with hm2
    subst hm2
    have hin2 : ∀ e ∈ dictInsert (load_metadata s renameOk).1
        (fo ++ "_" ++ fn ++ "_" ++ ts)
        { folder := fo, filename := fn, description := pyStrip req.descriptionRaw,
          upload_date := now, filepath := pathOf fo fn,
          thumbnail := if is_image fn then some (thumbName fo fn) else none,
          uploaded_by := (get_system_info dns).1, system_ip := (get_system_info dns).2,
          file_size := fs.sizeOf (pathOf fo fn), is_image := is_image fn },
        e.2.uploaded_by = "Aman" ∨ e.2.uploaded_by = "Unknown" := by
      intro e he
      rcases dictInsert_mem he with h | h
      · exact hinv e h
      · rw [h]
        cases dns <;> simp [get_system_info]
    exact ⟨hin2, gallery_systems_le_two _ hin2⟩

theorem uploaded_by_is_constant_witness :
    ((get_system_info (some "1.2.3.4")).1 =
      if (some "1.2.3.4").isSome then "Aman" else "Unknown") ∧
    ((upload_file fsEmpty storeNonDict (some "1.2.3.4") reqPhoto "2024-01-01 00:00:00" "100.0"
        1 true false true true).1 =
      UploadResult.success "Trip" "photo.jpg" (pathOf "Trip" "photo.jpg")
        (get_system_info (some "1.2.3.4")).1 (get_system_info (some "1.2.3.4")).2
        (fsEmpty.sizeOf (pathOf "Trip" "photo.jpg"))) ∧
    (∃ d : FileRecord,
      ((upload_file fsEmpty storeNonDict (some "1.2.3.4") reqPhoto "2024-01-01 00:00:00" "100.0"
          1 true true true true).2).main =
        MetaContent.validDict (dictInsert (load_metadata storeNonDict true).1
          ("Trip" ++ "_" ++ "photo.jpg" ++ "_" ++ "100.0") d) ∧
      (dictInsert (load_metadata storeNonDict true).1
          ("Trip" ++ "_" ++ "photo.jpg" ++ "_" ++ "100.0") d).lookup
        ("Trip" ++ "_" ++ "photo.jpg" ++ "_" ++ "100.0") = some d ∧
      d.uploaded_by = (get_system_info (some "1.2.3.4")).1 ∧
      (d.uploaded_by = "Aman" ∨ d.uploaded_by = "Unknown")) ∧
    ((∀ e ∈ ([("Trip_photo.jpg_100.0", recStored)] : Meta),
        e.2.uploaded_by = "Aman" ∨ e.2.uploaded_by = "Unknown") ∧
      (gallery [("Trip_photo.jpg_100.0", recStored)]).2.total_systems ≤ 2) := by
  refine ⟨?_, ?_, ?_, ?_⟩
  · exact uploaded_by_is_constant.1 (some "1.2.3.4")
  · exact (uploaded_by_is_constant.2.1 fsEmpty storeNonDict (some "1.2.3.4") reqPhoto
      "2024-01-01 00:00:00" "100.0" 1 true false true true "Trip" "photo.jpg" "photo.jpg"
      (by decide) (by decide) (by decide) (by decide) (by decide) (by decide)).1
  · exact uploaded_by_is_constant.2.2.1 fsEmpty storeNonDict (some "1.2.3.4") reqPhoto
      "2024-01-01 00:00:00" "100.0" 1 true true "Trip" "photo.jpg" "photo.jpg"
      (by decide) (by decide) (by decide) (by decide) (by decide) (by decide)
  · exact uploaded_by_is_constant.2.2.2.2 fsEmpty storeNonDict (some "1.2.3.4") reqPhoto
      "2024-01-01 00:00:00" "100.0" 1 true true "Trip" "photo.jpg" "photo.jpg"
      [("Trip_photo.jpg_100.0", recStored)]
      (by decide) (by decide) (by decide) (by decide) (by decide) (by decide)
      (by decide) (by decide)
